import Mathlib

/-!
Verification of the component-metadata configuration layer
(`src/metadata.rs` of `cargo-component`): the `Target` union with its
string-shorthand and table-form parsers, the `ComponentSection` record,
and the `ComponentMetadata` wrapper with its path-normalization pass and
derived queries.

External collaborator types (semver `VersionReq`, warg `PackageName`,
`wit_parser::validate_id`, serde's per-field deserializers) are kept
abstract: the embedding is parameterized over them, and small concrete
models written from the spec's words instantiate them in closed
statements.
-/

/-- Model of a filesystem path (`PathBuf`): an absolute flag plus a list of
path components.  `join` mirrors `Path::join`: joining with an absolute
path replaces the base. -/
structure FsPath where
  absolute : Bool
  components : List String
  deriving DecidableEq, Repr

/-- `Path::join`: an absolute right-hand side replaces the base, otherwise
components are appended. -/
def FsPath.join (a b : FsPath) : FsPath :=
  if b.absolute then b else ⟨a.absolute, a.components ++ b.components⟩

/-- `Path::parent`: drop the last component; `none` when there is no
component to drop. -/
def FsPath.parent (p : FsPath) : Option FsPath :=
  match p.components with
  | [] => none
  | _ => some ⟨p.absolute, p.components.dropLast⟩

/-- A semver version requirement, kept abstract as its source text
(parsing is done by the external semver collaborator). -/
structure VersionReq where
  raw : String
  deriving DecidableEq, Repr

/-- A namespaced package name (warg `PackageName`, e.g. `wasi:http`):
a namespace part and a name part. -/
structure PackageName where
  ns : String
  name : String
  deriving DecidableEq, Repr

/-- `cargo_component_core::registry::RegistryPackage`: optional override
name, version requirement, optional registry alias. -/
structure RegistryPackage where
  name : Option String
  version : VersionReq
  registry : Option String
  deriving DecidableEq, Repr

/-- `cargo_component_core::registry::Dependency`: either a registry
package reference or a local filesystem path.  The source variants are
`Package` and `Local`; `Local` is spelled `localPath` here. -/
inductive Dependency where
  | package (p : RegistryPackage)
  | localPath (path : FsPath)
  deriving DecidableEq, Repr

/-- `std::borrow::Cow`: records whether a returned value is synthesized
(`owned`) or a reference to stored data (`borrowed`). -/
inductive Cow (α : Type) where
  | owned (val : α)
  | borrowed (val : α)
  deriving DecidableEq, Repr

/-- The `Target` enum: a world from a registry package, or a world from a
local wit document.  The source variants are `Package` and `Local`;
`Local` is spelled `local_` here.  Maps are association lists. -/
inductive Target where
  | package (name : PackageName) (pkg : RegistryPackage) (world : Option String)
  | local_ (path : Option FsPath) (world : Option String)
      (dependencies : List (PackageName × Dependency))
  deriving DecidableEq, Repr

/-- `Target::dependencies`: the Package variant synthesizes a fresh
single-entry map from the target's own name to a Package-kind dependency;
the Local variant returns the stored map by reference. -/
def Target.dependencies : Target → Cow (List (PackageName × Dependency))
  | .package name pkg _ => .owned [(name, .package pkg)]
  | .local_ _ _ deps => .borrowed deps

/-- `Target::world`: the optional world name, uniform across variants. -/
def Target.world : Target → Option String
  | .package _ _ w => w
  | .local_ _ w _ => w

/-- `impl Default for Target`: Local with no path, no world, no
dependencies. -/
def Target.defaultTarget : Target := .local_ none none []

/-- Error kinds of the string-shorthand parse, following the spec's error
vocabulary: `InvalidTarget` for a missing `@` or malformed version
requirement, `InvalidWorldName` for a bad world identifier,
`InvalidPackageName` for a bad package name. -/
inductive TargetParseError where
  | invalidTarget
  | invalidWorldName
  | invalidPackageName
  deriving DecidableEq, Repr

/-- The external parsers `Target::from_str` delegates to: semver
`VersionReq` parsing, warg `PackageName` parsing, and
`wit_parser::validate_id`.  They live in external crates, so the
embedding is parameterized over them. -/
structure ExternalParsers where
  parseVersionReq : String → Option VersionReq
  parsePackageName : String → Option PackageName
  validateId : String → Bool

/-- `str::split_once`: split at the first occurrence of `c`, removing it;
`none` when `c` does not occur. -/
def splitOnce (c : Char) : List Char → Option (List Char × List Char)
  | [] => none
  | x :: xs =>
    if x = c then some ([], xs)
    else
      match splitOnce c xs with
      | none => none
      | some (a, b) => some (x :: a, b)

/-- `impl FromStr for Target` (`Target::from_str`): split at the FIRST
`@` (`split_once`), parse the right side as a version requirement, split
the left side at the first `/`, validate the world identifier when
present, parse the package name; always builds the Package variant with
no override name and no registry alias. -/
def Target.fromStr (ext : ExternalParsers) (s : String) :
    Except TargetParseError Target :=
  match splitOnce '@' s.data with
  | none => .error .invalidTarget
  | some (nameWorld, version) =>
    match ext.parseVersionReq (String.mk version) with
    | none => .error .invalidTarget
    | some vr =>
      match splitOnce '/' nameWorld with
      | some (name, world) =>
        if ext.validateId (String.mk world) then
          match ext.parsePackageName (String.mk name) with
          | none => .error .invalidPackageName
          | some pn => .ok (.package pn ⟨none, vr, none⟩ (some (String.mk world)))
        else .error .invalidWorldName
      | none =>
        match ext.parsePackageName (String.mk nameWorld) with
        | none => .error .invalidPackageName
        | some pn => .ok (.package pn ⟨none, vr, none⟩ none)

/-- Split at the first occurrence of `c`, phrased positionally via
`takeWhile`/`dropWhile` (used to state the spec's parsing rule
independently of the source's recursion). -/
def breakFirst (c : Char) (l : List Char) : Option (List Char × List Char) :=
  if l.contains c then some (l.takeWhile (· ≠ c), (l.dropWhile (· ≠ c)).drop 1)
  else none

/-- Split at the LAST occurrence of `c` (the spec's stated rule for the
`@` separator), derived from `breakFirst` on the reversed list. -/
def breakLast (c : Char) (l : List Char) : Option (List Char × List Char) :=
  match breakFirst c l.reverse with
  | none => none
  | some (a, b) => some (b.reverse, a.reverse)

/-- Modelled from the spec: the string-shorthand parse exactly as the
spec's words describe it — split on the LAST `@`, then proceed as in
`Target.fromStr`. -/
def Target.fromStrSpecLastAt (ext : ExternalParsers) (s : String) :
    Except TargetParseError Target :=
  match breakLast '@' s.data with
  | none => .error .invalidTarget
  | some (nameWorld, version) =>
    match ext.parseVersionReq (String.mk version) with
    | none => .error .invalidTarget
    | some vr =>
      match breakFirst '/' nameWorld with
      | some (name, world) =>
        if ext.validateId (String.mk world) then
          match ext.parsePackageName (String.mk name) with
          | none => .error .invalidPackageName
          | some pn => .ok (.package pn ⟨none, vr, none⟩ (some (String.mk world)))
        else .error .invalidWorldName
      | none =>
        match ext.parsePackageName (String.mk nameWorld) with
        | none => .error .invalidPackageName
        | some pn => .ok (.package pn ⟨none, vr, none⟩ none)

/-- The amended parsing rule: identical to the spec's words except that
the `@` split is at the FIRST occurrence, stated via `breakFirst` rather
than the source's recursion. -/
def Target.fromStrSpecFirstAt (ext : ExternalParsers) (s : String) :
    Except TargetParseError Target :=
  match breakFirst '@' s.data with
  | none => .error .invalidTarget
  | some (nameWorld, version) =>
    match ext.parseVersionReq (String.mk version) with
    | none => .error .invalidTarget
    | some vr =>
      match breakFirst '/' nameWorld with
      | some (name, world) =>
        if ext.validateId (String.mk world) then
          match ext.parsePackageName (String.mk name) with
          | none => .error .invalidPackageName
          | some pn => .ok (.package pn ⟨none, vr, none⟩ (some (String.mk world)))
        else .error .invalidWorldName
      | none =>
        match ext.parsePackageName (String.mk nameWorld) with
        | none => .error .invalidPackageName
        | some pn => .ok (.package pn ⟨none, vr, none⟩ none)

/-- Modelled from the spec: a syntactically valid (kebab-case) identifier
— nonempty, built from lowercase letters, digits and dashes.  Stands in
for the external `wit_parser::validate_id`. -/
def specValidateId (s : String) : Bool :=
  !s.data.isEmpty && s.data.all fun c => c.isLower || c.isDigit || c == '-'

/-- Modelled from the spec: a version requirement — nonempty, digits and
dots only (a simplified fragment of the external semver grammar, which in
particular never contains `@` or `/`). -/
def specParseVersionReq (s : String) : Option VersionReq :=
  if !s.data.isEmpty && s.data.all (fun c => c.isDigit || c == '.') then
    some ⟨s⟩
  else none

/-- Modelled from the spec: a namespaced package identifier
`namespace:name` with both parts valid identifiers.  Stands in for the
external warg `PackageName` parse. -/
def specParsePackageName (s : String) : Option PackageName :=
  match splitOnce ':' s.data with
  | none => none
  | some (a, b) =>
    if specValidateId (String.mk a) && specValidateId (String.mk b) then
      some ⟨String.mk a, String.mk b⟩
    else none

/-- The spec-modelled instantiation of the external parsers. -/
def specExt : ExternalParsers :=
  ⟨specParseVersionReq, specParsePackageName, specValidateId⟩

deriving instance DecidableEq for Except

/-- Error kinds of the table-form target / section deserialization,
following the spec's error vocabulary: `ConflictingFields` for mutually
exclusive fields (recording the two offending field names),
`MissingField` for a required field that is absent, `InvalidPackageName`
for a package-name parse failure, `UnknownField` for a strict-schema
rejection. -/
inductive DeError where
  | conflictingFields (a b : String)
  | missingField (f : String)
  | invalidPackageName
  | unknownField (f : String)
  deriving DecidableEq, Repr

/-- The flat intermediate `Entry` record of the table-form target parse:
all fields optional or defaulted (`#[serde(default)]`). -/
structure Entry where
  package : Option String := none
  version : Option VersionReq := none
  world : Option String := none
  registry : Option String := none
  path : Option FsPath := none
  dependencies : List (PackageName × Dependency) := []
  deriving DecidableEq, Repr

/-- The table-form target parse (`visit_map` of `Deserialize for
Target`), after the flat `Entry` has been read: match on
`(entry.path, entry.package)` exactly as the source does — `package`
alone builds the Package variant (rejecting nonempty `dependencies`,
then parsing the name, then requiring `version`); `package` absent
builds the Local variant (rejecting `version` then `registry`); both
`path` and `package` present is an error. -/
def Target.fromEntry (ext : ExternalParsers) (entry : Entry) :
    Except DeError Target :=
  match entry.path, entry.package with
  | none, some pkgText =>
    if !entry.dependencies.isEmpty then
      .error (.conflictingFields "dependencies" "package")
    else
      match ext.parsePackageName pkgText with
      | none => .error .invalidPackageName
      | some n =>
        match entry.version with
        | none => .error (.missingField "version")
        | some version =>
          .ok (.package n ⟨none, version, entry.registry⟩ entry.world)
  | path, none =>
    if entry.version.isSome then
      .error (.conflictingFields "version" "path")
    else if entry.registry.isSome then
      .error (.conflictingFields "registry" "path")
    else
      .ok (.local_ path entry.world entry.dependencies)
  | some _, some _ => .error (.conflictingFields "path" "package")

/-- The default directory to look for a target WIT file
(`DEFAULT_WIT_DIR`). -/
def DEFAULT_WIT_DIR : String := "wit"

/-- The supported ownership model for generated types (`Ownership`);
default `Owning`. -/
inductive Ownership where
  | owning
  | borrowing
  | borrowingDuplicateIfNecessary
  deriving DecidableEq, Repr

/-- Configuration for bindings generation (`Bindings`), with the
defaults of its `Default` impl (`format` true, everything else at its
structural default).  Maps are association lists.  Two fields whose
source names contain a word unavailable here are renamed: `with` is
`with_remap`, and the export-macro-name and public-export-macro fields
are `export_m_name` and `pub_export_m`. -/
structure Bindings where
  format : Bool := true
  ownership : Ownership := .owning
  derives : List String := []
  std_feature : Bool := false
  raw_strings : Bool := false
  skip : List String := []
  stubs : Bool := false
  export_prefix : Option String := none
  with_remap : List (String × String) := []
  type_section_suffix : Option String := none
  disable_run_ctors_once_workaround : Bool := false
  default_bindings_module : Option String := none
  export_m_name : Option String := none
  pub_export_m : Bool := false
  generate_unused_types : Bool := false
  deriving DecidableEq, Repr

/-- The `package.metadata.component` section (`ComponentSection`), with
its serde defaults: no package override, the default Local target, no
adapter, empty maps, default bindings, proxy false. -/
structure ComponentSection where
  package : Option PackageName := none
  target : Target := .local_ none none []
  adapter : Option FsPath := none
  dependencies : List (PackageName × Dependency) := []
  registries : List (String × String) := []
  bindings : Bindings := {}
  proxy : Bool := false
  deriving DecidableEq, Repr

/-- A raw configuration value, as handed to serde by the document
reader. -/
inductive RawValue where
  | str (s : String)
  | boolean (b : Bool)
  | table (fields : List (String × RawValue))

/-- The per-field deserializers of `ComponentSection`'s derived
`Deserialize` impl (each field's own `Deserialize` is external
machinery); the embedding of the strict top-level schema is
parameterized over them. -/
structure FieldParsers where
  package : RawValue → Except DeError PackageName
  target : RawValue → Except DeError Target
  adapter : RawValue → Except DeError FsPath
  dependencies : RawValue → Except DeError (List (PackageName × Dependency))
  registries : RawValue → Except DeError (List (String × String))
  bindings : RawValue → Except DeError Bindings
  proxy : RawValue → Except DeError Bool

/-- The recognized top-level keys of a `ComponentSection` table. -/
def recognizedSectionFields : List String :=
  ["package", "target", "adapter", "dependencies", "registries", "bindings", "proxy"]

/-- One step of the strict (`deny_unknown_fields`) table deserialization
of `ComponentSection`: a recognized key updates the corresponding field
via its parser, any other key is rejected. -/
def applySectionField (fp : FieldParsers) (s : ComponentSection)
    (kv : String × RawValue) : Except DeError ComponentSection :=
  if kv.1 = "package" then (fp.package kv.2).map fun x => { s with package := some x }
  else if kv.1 = "target" then (fp.target kv.2).map fun x => { s with target := x }
  else if kv.1 = "adapter" then (fp.adapter kv.2).map fun x => { s with adapter := some x }
  else if kv.1 = "dependencies" then
    (fp.dependencies kv.2).map fun x => { s with dependencies := x }
  else if kv.1 = "registries" then
    (fp.registries kv.2).map fun x => { s with registries := x }
  else if kv.1 = "bindings" then (fp.bindings kv.2).map fun x => { s with bindings := x }
  else if kv.1 = "proxy" then (fp.proxy kv.2).map fun x => { s with proxy := x }
  else .error (.unknownField kv.1)

/-- The strict table deserialization of `ComponentSection` (the derived
`Deserialize` with `default` and `deny_unknown_fields`): start from the
default section and fold over the present fields. -/
def deserializeSection (fp : FieldParsers) (raw : List (String × RawValue)) :
    Except DeError ComponentSection :=
  raw.foldlM (applySectionField fp) {}

/-- Errors of `ComponentMetadata::from_package`: a section
deserialization failure (carrying the source manifest path as context),
a manifest path with no parent directory, or a failure to read the
manifest's modification time. -/
inductive MetadataError where
  | deserialize (manifest_path : FsPath) (err : DeError)
  | noParentDir (manifest_path : FsPath)
  | modifiedTime (manifest_path : FsPath)
  deriving DecidableEq, Repr

/-- The input package record (`cargo_metadata::Package`): name, version
text, manifest path, and the `component` entry of its open metadata
block (`package.metadata.get("component")`), when present. -/
structure Package where
  name : String
  version : String
  manifest_path : FsPath
  metadata_component : Option (List (String × RawValue))

/-- Cargo metadata for a component (`ComponentMetadata`). -/
structure ComponentMetadata where
  name : String
  version : String
  manifest_path : FsPath
  modified_at : Nat
  section_ : ComponentSection
  section_present : Bool
  deriving DecidableEq, Repr

/-- The path rewrite applied to one dependency value during
construction: a Local-kind path is joined against the manifest
directory, a Package-kind dependency is untouched. -/
def Dependency.normalize (dir : FsPath) : Dependency → Dependency
  | .localPath p => .localPath (dir.join p)
  | .package r => .package r

/-- Rewrite every dependency value of a map (`values_mut` walk). -/
def normalizeDeps (dir : FsPath)
    (deps : List (PackageName × Dependency)) :
    List (PackageName × Dependency) :=
  deps.map fun kv => (kv.1, kv.2.normalize dir)

/-- The path-normalization pass of `ComponentMetadata::from_package`:
rewrite Target::Local's path and Local-kind target dependencies, the
section's top-level Local-kind dependencies, and the adapter path, by
joining against the manifest directory; everything else is unchanged. -/
def ComponentSection.normalizePaths (dir : FsPath) (s : ComponentSection) :
    ComponentSection :=
  { s with
    target :=
      match s.target with
      | .local_ p w deps => .local_ (p.map dir.join) w (normalizeDeps dir deps)
      | t => t
    dependencies := normalizeDeps dir s.dependencies
    adapter := s.adapter.map dir.join }

/-- `ComponentMetadata::from_package`: look up the `component` metadata
block (defaulting when absent, recording presence), deserialize it
strictly (a failure is wrapped with the manifest path as context),
compute the manifest's parent directory (error when there is none),
read the manifest's last-modified time via the external collaborator
`mtime` (error on failure), normalize all paths against the manifest
directory, and assemble the result. -/
def ComponentMetadata.from_package (fp : FieldParsers)
    (mtime : FsPath → Option Nat) (p : Package) :
    Except MetadataError ComponentMetadata :=
  match
    (match p.metadata_component with
     | some raw =>
       match deserializeSection fp raw with
       | .ok s => Except.ok (s, true)
       | .error e => Except.error (MetadataError.deserialize p.manifest_path e)
     | none => Except.ok (({} : ComponentSection), false)) with
  | .error e => .error e
  | .ok (section_, section_present) =>
    match p.manifest_path.parent with
    | none => .error (.noParentDir p.manifest_path)
    | some manifest_dir =>
      match mtime p.manifest_path with
      | none => .error (.modifiedTime p.manifest_path)
      | some modified_at =>
        .ok { name := p.name, version := p.version,
              manifest_path := p.manifest_path,
              modified_at := modified_at,
              section_ := section_.normalizePaths manifest_dir,
              section_present := section_present }

/-- `ComponentMetadata::target_package`: the target's package name for
the Package variant, `none` otherwise. -/
def ComponentMetadata.target_package (m : ComponentMetadata) : Option PackageName :=
  match m.section_.target with
  | .package n _ _ => some n
  | _ => none

/-- `ComponentMetadata::target_path`, with the filesystem existence
probe abstracted as `fs`, and the source's `parent().unwrap()` modelled
explicitly (`.error ()` is the panic case): the stored path for a Local
target with an explicit path; for a Local target without one,
`<manifest_dir>/wit` exactly when the probe says it exists; always
`none` for a Package target. -/
def ComponentMetadata.target_path (fs : FsPath → Bool)
    (m : ComponentMetadata) : Except Unit (Option FsPath) :=
  match m.section_.target with
  | .local_ (some p) _ _ => .ok (some p)
  | .local_ none _ _ =>
    match m.manifest_path.parent with
    | none => .error ()
    | some dir =>
      let p := dir.join ⟨false, [DEFAULT_WIT_DIR]⟩
      .ok (if fs p then some p else none)
  | .package _ _ _ => .ok none

/-- `ComponentMetadata::target_world`: delegates to `Target::world`. -/
def ComponentMetadata.target_world (m : ComponentMetadata) : Option String :=
  m.section_.target.world

/-- A concrete manifest directory used in closed statements. -/
def sampleDir : FsPath := ⟨true, ["home", "proj"]⟩

/-- A concrete manifest path used in closed statements. -/
def samplePath : FsPath := ⟨true, ["home", "proj", "Cargo.toml"]⟩

/-- A concrete section exercising every path-bearing field. -/
def sampleSection : ComponentSection :=
  { package := some ⟨"my", "comp"⟩,
    target := .local_ (some ⟨false, ["wit"]⟩) (some "w")
      [(⟨"a", "b"⟩, .localPath ⟨false, ["d"]⟩),
       (⟨"c", "d"⟩, .package ⟨none, ⟨"1"⟩, none⟩)],
    adapter := some ⟨false, ["adapter.wasm"]⟩,
    dependencies := [(⟨"e", "f"⟩, .localPath ⟨false, ["g"]⟩)],
    registries := [("r", "url")],
    proxy := true }

/-- Per-field parsers that reject every value; sufficient for closed
statements whose tables are empty or whose offending key is unknown. -/
def rejectFieldParsers : FieldParsers :=
  ⟨fun _ => .error (.unknownField "package"),
   fun _ => .error (.unknownField "target"),
   fun _ => .error (.unknownField "adapter"),
   fun _ => .error (.unknownField "dependencies"),
   fun _ => .error (.unknownField "registries"),
   fun _ => .error (.unknownField "bindings"),
   fun _ => .error (.unknownField "proxy")⟩

/-- A concrete modification-time collaborator. -/
def sampleMTime : FsPath → Option Nat := fun _ => some 7

/-- A package whose manifest has no `component` metadata block. -/
def pkgNoMeta : Package := ⟨"p", "0.1.0", samplePath, none⟩

/-- A package whose `component` metadata block is an empty table. -/
def pkgEmptyMeta : Package := ⟨"p", "0.1.0", samplePath, some []⟩

/-- A package whose `component` metadata block has an unknown key. -/
def pkgUnknownMeta : Package :=
  ⟨"p", "0.1.0", samplePath, some [("foo", .boolean true)]⟩

/-- The metadata value `from_package` yields for `pkgNoMeta`. -/
def mNoMeta : ComponentMetadata :=
  { name := "p", version := "0.1.0", manifest_path := samplePath,
    modified_at := 7, section_ := {}, section_present := false }

/-- The metadata value `from_package` yields for `pkgEmptyMeta`. -/
def mEmptyMeta : ComponentMetadata :=
  { mNoMeta with section_present := true }

/-- A metadata value whose target is Local with an explicit path. -/
def mExplicit : ComponentMetadata :=
  { mNoMeta with
    section_ := { target := .local_ (some ⟨false, ["w"]⟩) none [] },
    section_present := true }

/-- A metadata value whose target is Local without a path. -/
def mDefaultPath : ComponentMetadata := { mExplicit with section_ := {} }

/-- A metadata value whose target is the Package variant. -/
def mPackageTarget : ComponentMetadata :=
  { mExplicit with
    section_ := { target := .package ⟨"wasi", "http"⟩ ⟨none, ⟨"1"⟩, none⟩ none } }

theorem string_mk_data (s : String) : String.mk s.data = s := rfl

theorem splitOnce_eq_breakFirst (c : Char) (l : List Char) :
    splitOnce c l = breakFirst c l := by
  induction l with
  | nil => rfl
  | cons x xs ih =>
    rw [splitOnce, ih]
    by_cases hx : x = c
    · subst hx
      simp [breakFirst]
    · have hx2 : ¬ c = x := fun h => hx h.symm
      by_cases hc : c ∈ xs
      · simp [breakFirst, hc, hx, hx2, List.takeWhile_cons, List.dropWhile_cons]
      · simp [breakFirst, hc, hx, hx2]

theorem splitOnce_eq_none {c : Char} {l : List Char} (h : c ∉ l) :
    splitOnce c l = none := by
  induction l with
  | nil => rfl
  | cons x xs ih =>
    rw [splitOnce]
    have hx : ¬ x = c := fun he => h (he ▸ List.mem_cons_self x xs)
    have hxs : c ∉ xs := fun hm => h (List.mem_cons_of_mem x hm)
    simp [hx, ih hxs]

theorem splitOnce_append {c : Char} {a : List Char} (b : List Char)
    (h : c ∉ a) : splitOnce c (a ++ c :: b) = some (a, b) := by
  induction a with
  | nil => simp [splitOnce]
  | cons x xs ih =>
    have hx : ¬ x = c := fun he => h (he ▸ List.mem_cons_self x xs)
    have hxs : c ∉ xs := fun hm => h (List.mem_cons_of_mem x hm)
    rw [List.cons_append, splitOnce, ih hxs]
    simp [hx]

/-- C1 (counterexample): the claim states that the string-shorthand parse
splits on the LAST `@`.  The source uses `split_once`, which splits on
the FIRST `@`.  On `a:b@c/d@1.0.0` the code takes `c/d@1.0.0` as the
version text and fails with `InvalidTarget`, whereas the claimed
last-`@` rule would take version `1.0.0`, world `d`, and fail on the
package name `a:b@c` with `InvalidPackageName`. -/
theorem c1_counterexample :
    Target.fromStr specExt "a:b@c/d@1.0.0" = .error .invalidTarget ∧
    Target.fromStrSpecLastAt specExt "a:b@c/d@1.0.0" = .error .invalidPackageName ∧
    Target.fromStr specExt "a:b@c/d@1.0.0" ≠
      Target.fromStrSpecLastAt specExt "a:b@c/d@1.0.0" :=
  ⟨by decide, by decide, by decide⟩

/-- C1 (amended): for every input string and every choice of the external
parsers, the string-shorthand target parse splits on the FIRST `@`; the
left side is the name portion and the right side must parse as a version
requirement, failing with `InvalidTarget` if the `@` is absent or the
version requirement is malformed; the name portion is then split on the
first `/`, and if a `/` is present the right side must be a valid
identifier (`InvalidWorldName` otherwise) which becomes the world name,
while the left side must parse as a namespaced package identifier
(`InvalidPackageName` otherwise). -/
theorem c1_first_at_split (ext : ExternalParsers) (s : String) :
    Target.fromStr ext s = Target.fromStrSpecFirstAt ext s := by
  simp only [Target.fromStr, Target.fromStrSpecFirstAt, splitOnce_eq_breakFirst]

/-- C2: for every valid string-shorthand target `name@req` or
`name/world@req` (name containing neither `@` nor `/`, world containing
no `@`, and the external parsers accepting the components), parsing
produces the Package variant with no registry alias and no override
name, and re-deriving the world via `world()` and the package name from
the parsed value yields exactly the original components. -/
theorem c2_roundtrip (ext : ExternalParsers) (name world req : String)
    (hna : '@' ∉ name.data) (hns : '/' ∉ name.data) (hwa : '@' ∉ world.data)
    (pn : PackageName) (vr : VersionReq)
    (hpn : ext.parsePackageName name = some pn)
    (hid : ext.validateId world = true)
    (hvr : ext.parseVersionReq req = some vr) :
    (Target.fromStr ext (name ++ "@" ++ req) =
        .ok (.package pn ⟨none, vr, none⟩ none) ∧
      Target.world (.package pn ⟨none, vr, none⟩ none) = none) ∧
    (Target.fromStr ext (name ++ "/" ++ world ++ "@" ++ req) =
        .ok (.package pn ⟨none, vr, none⟩ (some world)) ∧
      Target.world (.package pn ⟨none, vr, none⟩ (some world)) = some world) := by
  refine ⟨⟨?_, rfl⟩, ⟨?_, rfl⟩⟩
  · have hdata : (name ++ "@" ++ req).data = name.data ++ '@' :: req.data := by
      simp
    simp only [Target.fromStr, hdata, splitOnce_append _ hna, string_mk_data, hvr,
      splitOnce_eq_none hns, hpn]
  · have hdata2 : (name ++ "/" ++ world ++ "@" ++ req).data
        = (name.data ++ '/' :: world.data) ++ '@' :: req.data := by
      simp
    have hmem : '@' ∉ name.data ++ '/' :: world.data := by
      intro h
      rcases List.mem_append.mp h with h | h
      · exact hna h
      · rcases List.mem_cons.mp h with h | h
        · exact absurd h (by decide)
        · exact hwa h
    simp only [Target.fromStr, hdata2, splitOnce_append _ hmem,
      splitOnce_append _ hns, string_mk_data, hvr, hid, if_true, hpn]

/-- C2 witness: the round-trip theorem applied at `foo:bar@1.0.0` and
`foo:bar/baz@1.0.0` with the spec-modelled external parsers. -/
theorem c2_roundtrip_witness :
    Target.fromStr specExt ("foo:bar" ++ "@" ++ "1.0.0") =
      .ok (.package ⟨"foo", "bar"⟩ ⟨none, ⟨"1.0.0"⟩, none⟩ none) ∧
    Target.fromStr specExt ("foo:bar" ++ "/" ++ "baz" ++ "@" ++ "1.0.0") =
      .ok (.package ⟨"foo", "bar"⟩ ⟨none, ⟨"1.0.0"⟩, none⟩ (some "baz")) := by
  have h := c2_roundtrip specExt "foo:bar" "baz" "1.0.0" (by decide) (by decide)
    (by decide) ⟨"foo", "bar"⟩ ⟨"1.0.0"⟩ (by decide) (by decide) (by decide)
  exact ⟨h.1.1, h.2.1⟩

/-- C3: every table-form target entry in which both the `package` field
and the `path` field are present fails with the ConflictingFields error
kind, regardless of which other fields are present. -/
theorem c3_path_package_conflict (ext : ExternalParsers) (e : Entry)
    (p : FsPath) (q : String) (hp : e.path = some p) (hq : e.package = some q) :
    Target.fromEntry ext e = .error (.conflictingFields "path" "package") := by
  unfold Target.fromEntry
  rw [hp, hq]

/-- C3 witness: a concrete entry with both `package` and `path` set, and
every other field populated as well. -/
theorem c3_path_package_conflict_witness :
    Target.fromEntry specExt
      { package := some "foo:bar", version := some ⟨"1.0.0"⟩,
        world := some "w", registry := some "r",
        path := some ⟨false, ["x"]⟩,
        dependencies := [(⟨"a", "b"⟩, .localPath ⟨false, ["d"]⟩)] } =
      .error (.conflictingFields "path" "package") :=
  c3_path_package_conflict specExt _ ⟨false, ["x"]⟩ "foo:bar" rfl rfl

/-- C4: for every table-form target entry with `package` present and
`path` absent: nonempty `dependencies` fails with ConflictingFields;
with empty `dependencies` and a well-formed package name, a missing
`version` fails with MissingField, and a present `version` yields the
Package variant carrying the entry's version, registry and world. -/
theorem c4_package_requires_version (ext : ExternalParsers) (e : Entry)
    (q : String) (hq : e.package = some q) (hp : e.path = none) :
    (e.dependencies ≠ [] →
        Target.fromEntry ext e = .error (.conflictingFields "dependencies" "package")) ∧
    (∀ n, e.dependencies = [] → ext.parsePackageName q = some n →
        e.version = none →
        Target.fromEntry ext e = .error (.missingField "version")) ∧
    (∀ n v, e.dependencies = [] → ext.parsePackageName q = some n →
        e.version = some v →
        Target.fromEntry ext e = .ok (.package n ⟨none, v, e.registry⟩ e.world)) := by
  refine ⟨?_, ?_, ?_⟩
  · intro hd
    unfold Target.fromEntry
    rw [hp, hq]
    simp [List.isEmpty_iff, hd]
  · intro n hd hn hv
    unfold Target.fromEntry
    rw [hp, hq]
    simp [hd, hn, hv]
  · intro n v hd hn hv
    unfold Target.fromEntry
    rw [hp, hq]
    simp [hd, hn, hv]

/-- C4 witness: the three branches exercised on concrete entries. -/
theorem c4_package_requires_version_witness :
    Target.fromEntry specExt
      { package := some "foo:bar",
        dependencies := [(⟨"a", "b"⟩, .localPath ⟨false, ["d"]⟩)] } =
      .error (.conflictingFields "dependencies" "package") ∧
    Target.fromEntry specExt { package := some "foo:bar" } =
      .error (.missingField "version") ∧
    Target.fromEntry specExt
      { package := some "foo:bar", version := some ⟨"1.0.0"⟩,
        registry := some "r", world := some "w" } =
      .ok (.package ⟨"foo", "bar"⟩ ⟨none, ⟨"1.0.0"⟩, some "r"⟩ (some "w")) :=
  ⟨(c4_package_requires_version specExt _ "foo:bar" rfl rfl).1 (by decide),
   (c4_package_requires_version specExt _ "foo:bar" rfl rfl).2.1
     ⟨"foo", "bar"⟩ rfl (by decide) rfl,
   (c4_package_requires_version specExt _ "foo:bar" rfl rfl).2.2
     ⟨"foo", "bar"⟩ ⟨"1.0.0"⟩ rfl (by decide) rfl⟩

/-- C5: for every table-form target entry with `package` absent (whether
`path` is present or absent): a present `version` fails with
ConflictingFields; otherwise a present `registry` fails with
ConflictingFields; with both absent the result is the Local variant
carrying the given `path` (possibly none), `world` and `dependencies`. -/
theorem c5_local_variant (ext : ExternalParsers) (e : Entry)
    (hq : e.package = none) :
    (∀ v, e.version = some v →
        Target.fromEntry ext e = .error (.conflictingFields "version" "path")) ∧
    (∀ r, e.version = none → e.registry = some r →
        Target.fromEntry ext e = .error (.conflictingFields "registry" "path")) ∧
    (e.version = none → e.registry = none →
        Target.fromEntry ext e = .ok (.local_ e.path e.world e.dependencies)) := by
  refine ⟨?_, ?_, ?_⟩
  · intro v hv
    unfold Target.fromEntry
    rcases hp : e.path with _ | p <;> rw [hq] <;> simp [hv]
  · intro r hv hr
    unfold Target.fromEntry
    rcases hp : e.path with _ | p <;> rw [hq] <;> simp [hv, hr]
  · intro hv hr
    unfold Target.fromEntry
    rcases hp : e.path with _ | p <;> rw [hq] <;> simp [hv, hr, hp]

/-- C5 witness: the error branches and both Local outcomes (with and
without a path) on concrete entries. -/
theorem c5_local_variant_witness :
    Target.fromEntry specExt { version := some ⟨"1.0.0"⟩ } =
      .error (.conflictingFields "version" "path") ∧
    Target.fromEntry specExt { registry := some "r", path := some ⟨false, ["x"]⟩ } =
      .error (.conflictingFields "registry" "path") ∧
    Target.fromEntry specExt
      { path := some ⟨false, ["x"]⟩, world := some "w",
        dependencies := [(⟨"a", "b"⟩, .localPath ⟨false, ["d"]⟩)] } =
      .ok (.local_ (some ⟨false, ["x"]⟩) (some "w")
        [(⟨"a", "b"⟩, .localPath ⟨false, ["d"]⟩)]) ∧
    Target.fromEntry specExt {} = .ok (.local_ none none []) :=
  ⟨(c5_local_variant specExt _ rfl).1 ⟨"1.0.0"⟩ rfl,
   (c5_local_variant specExt _ rfl).2.1 "r" rfl rfl,
   (c5_local_variant specExt _ rfl).2.2 rfl rfl,
   (c5_local_variant specExt _ rfl).2.2 rfl rfl⟩

/-- C6: `dependencies()` on the Package variant returns an owned
(synthesized) mapping with exactly one entry, keyed by the target's own
package name, whose value is the Package-kind dependency carrying the
target's registry package reference (hence the same version requirement
and registry alias); on the Local variant it returns the stored mapping
by reference (borrowed), without copying. -/
theorem c6_dependencies_query (t : Target) :
    (∀ n pkg w, t = .package n pkg w →
        t.dependencies = .owned [(n, .package pkg)]) ∧
    (∀ p w deps, t = .local_ p w deps → t.dependencies = .borrowed deps) := by
  constructor
  · intro n pkg w ht
    subst ht
    rfl
  · intro p w deps ht
    subst ht
    rfl

/-- C6 witness: the dependencies query evaluated on a concrete Package
target and a concrete Local target. -/
theorem c6_dependencies_query_witness :
    Target.dependencies
        (.package ⟨"wasi", "http"⟩ ⟨none, ⟨"1.0.0"⟩, some "r"⟩ (some "w")) =
      .owned [(⟨"wasi", "http"⟩, .package ⟨none, ⟨"1.0.0"⟩, some "r"⟩)] ∧
    Target.dependencies
        (.local_ (some ⟨false, ["wit"]⟩) none
          [(⟨"a", "b"⟩, .localPath ⟨false, ["d"]⟩)]) =
      .borrowed [(⟨"a", "b"⟩, .localPath ⟨false, ["d"]⟩)] :=
  ⟨(c6_dependencies_query _).1 ⟨"wasi", "http"⟩ ⟨none, ⟨"1.0.0"⟩, some "r"⟩
      (some "w") rfl,
   (c6_dependencies_query _).2 (some ⟨false, ["wit"]⟩) none
      [(⟨"a", "b"⟩, .localPath ⟨false, ["d"]⟩)] rfl⟩

theorem from_package_ok_inv (fp : FieldParsers) (mtime : FsPath → Option Nat)
    (p : Package) (m : ComponentMetadata)
    (h : ComponentMetadata.from_package fp mtime p = .ok m) :
    ∃ d t s0 pres, p.manifest_path.parent = some d ∧
      mtime p.manifest_path = some t ∧
      (match p.metadata_component with
       | none => s0 = ({} : ComponentSection) ∧ pres = false
       | some raw => deserializeSection fp raw = .ok s0 ∧ pres = true) ∧
      m = { name := p.name, version := p.version,
            manifest_path := p.manifest_path, modified_at := t,
            section_ := s0.normalizePaths d, section_present := pres } := by
  unfold ComponentMetadata.from_package at h
  rcases hmc : p.metadata_component with _ | raw
  · simp only [hmc] at h ⊢
    rcases hpar : p.manifest_path.parent with _ | d
    · simp only [hpar] at h
      exact Except.noConfusion h
    · simp only [hpar] at h
      rcases hmt : mtime p.manifest_path with _ | t
      · simp only [hmt] at h
        exact Except.noConfusion h
      · simp only [hmt] at h
        injection h with h
        subst h
        exact ⟨d, t, {}, false, rfl, rfl, ⟨rfl, rfl⟩, rfl⟩
  · simp only [hmc] at h ⊢
    rcases hds : deserializeSection fp raw with e | s0
    · simp only [hds] at h
      exact Except.noConfusion h
    · simp only [hds] at h
      rcases hpar : p.manifest_path.parent with _ | d
      · simp only [hpar] at h
        exact Except.noConfusion h
      · simp only [hpar] at h
        rcases hmt : mtime p.manifest_path with _ | t
        · simp only [hmt] at h
          exact Except.noConfusion h
        · simp only [hmt] at h
          injection h with h
          subst h
          exact ⟨d, t, s0, true, rfl, rfl, ⟨rfl, rfl⟩, rfl⟩

theorem normalizePaths_default (dir : FsPath) :
    ComponentSection.normalizePaths dir {} = {} := rfl

theorem applySectionField_unknown (fp : FieldParsers) (s : ComponentSection)
    {k : String} (v : RawValue) (hk : k ∉ recognizedSectionFields) :
    applySectionField fp s (k, v) = .error (.unknownField k) := by
  simp only [recognizedSectionFields, List.mem_cons, List.not_mem_nil,
    or_false, not_or] at hk
  obtain ⟨h1, h2, h3, h4, h5, h6, h7⟩ := hk
  unfold applySectionField
  simp [h1, h2, h3, h4, h5, h6, h7]

theorem deserializeSection_unknown_mem (fp : FieldParsers) {k : String}
    {v : RawValue} (hk : k ∉ recognizedSectionFields) :
    ∀ (l : List (String × RawValue)) (s : ComponentSection), (k, v) ∈ l →
      ∃ e, l.foldlM (applySectionField fp) s = .error e := by
  intro l
  induction l with
  | nil => intro s hmem; exact absurd hmem (List.not_mem_nil _)
  | cons kv tl ih =>
    intro s hmem
    rcases happ : applySectionField fp s kv with e | s'
    · exact ⟨e, by rw [List.foldlM_cons, happ]; rfl⟩
    · rcases List.mem_cons.mp hmem with he | ht
      · rw [← he] at happ
        rw [applySectionField_unknown fp s v hk] at happ
        exact Except.noConfusion happ
      · obtain ⟨e, hrec⟩ := ih s' ht
        exact ⟨e, by rw [List.foldlM_cons, happ]; exact hrec⟩

/-- C7: during metadata construction exactly the listed path-bearing
fields are rewritten by joining against the manifest directory —
Target::Local's path if set, every Local-kind dependency in the target's
map, every Local-kind dependency in the section's top-level map, and the
adapter if set; a manifest-relative path `p` becomes `<manifest_dir>/p`;
Package targets, Package-kind dependencies and all other fields are
unchanged; construction is deterministic, and every constructed
metadata's section is the parsed section normalized against the
manifest's parent directory. -/
theorem c7_normalization (dir : FsPath) (s : ComponentSection) :
    (∀ q w deps, s.target = .local_ (some q) w deps →
        (s.normalizePaths dir).target =
          .local_ (some (dir.join q)) w (normalizeDeps dir deps)) ∧
    (∀ w deps, s.target = .local_ none w deps →
        (s.normalizePaths dir).target = .local_ none w (normalizeDeps dir deps)) ∧
    (∀ n pkg w, s.target = .package n pkg w →
        (s.normalizePaths dir).target = s.target) ∧
    (s.normalizePaths dir).dependencies = normalizeDeps dir s.dependencies ∧
    (∀ q, Dependency.normalize dir (.localPath q) = .localPath (dir.join q)) ∧
    (∀ r, Dependency.normalize dir (.package r) = .package r) ∧
    (∀ a, s.adapter = some a →
        (s.normalizePaths dir).adapter = some (dir.join a)) ∧
    (s.adapter = none → (s.normalizePaths dir).adapter = none) ∧
    (s.normalizePaths dir).package = s.package ∧
    (s.normalizePaths dir).registries = s.registries ∧
    (s.normalizePaths dir).bindings = s.bindings ∧
    (s.normalizePaths dir).proxy = s.proxy ∧
    (∀ q : FsPath, q.absolute = false →
        dir.join q = ⟨dir.absolute, dir.components ++ q.components⟩) ∧
    (∀ fp mtime pkg m m', ComponentMetadata.from_package fp mtime pkg = .ok m →
        ComponentMetadata.from_package fp mtime pkg = .ok m' → m = m') ∧
    (∀ fp mtime pkg m, ComponentMetadata.from_package fp mtime pkg = .ok m →
        ∃ d s0, pkg.manifest_path.parent = some d ∧
          m.section_ = s0.normalizePaths d ∧
          (match pkg.metadata_component with
           | none => s0 = ({} : ComponentSection)
           | some raw => deserializeSection fp raw = .ok s0)) := by
  refine ⟨?_, ?_, ?_, rfl, fun q => rfl, fun r => rfl, ?_, ?_, rfl, rfl, rfl, rfl,
    ?_, ?_, ?_⟩
  · intro q w deps ht
    simp [ComponentSection.normalizePaths, ht]
  · intro w deps ht
    simp [ComponentSection.normalizePaths, ht]
  · intro n pkg w ht
    simp [ComponentSection.normalizePaths, ht]
  · intro a ha
    simp [ComponentSection.normalizePaths, ha]
  · intro ha
    simp [ComponentSection.normalizePaths, ha]
  · intro q hq
    simp [FsPath.join, hq]
  · intro fp mtime pkg m m' h h'
    rw [h] at h'
    injection h'
  · intro fp mtime pkg m h
    obtain ⟨d, t, s0, pres, hpar, hmt, hcond, hm⟩ :=
      from_package_ok_inv fp mtime pkg m h
    refine ⟨d, s0, hpar, by rw [hm], ?_⟩
    rcases hmc : pkg.metadata_component with _ | raw <;>
      simp only [hmc] at hcond ⊢
    · exact hcond.1
    · exact hcond.1

/-- C8: `target_path` returns the stored path for a Local target with
an explicit path; for a Local target with no explicit path it returns
`<manifest-directory>/wit` exactly when the filesystem probe (consulted
at call time through `fs`) says that directory exists; for a Package
target it always returns `none`. -/
theorem c8_target_path (fs : FsPath → Bool) (m : ComponentMetadata) :
    (∀ q w deps, m.section_.target = .local_ (some q) w deps →
        m.target_path fs = .ok (some q)) ∧
    (∀ w deps d, m.section_.target = .local_ none w deps →
        m.manifest_path.parent = some d →
        m.target_path fs =
          .ok (if fs (d.join ⟨false, [DEFAULT_WIT_DIR]⟩) = true
               then some (d.join ⟨false, [DEFAULT_WIT_DIR]⟩) else none)) ∧
    (∀ n pkg w, m.section_.target = .package n pkg w →
        m.target_path fs = .ok none) := by
  refine ⟨?_, ?_, ?_⟩
  · intro q w deps ht
    unfold ComponentMetadata.target_path
    simp [ht]
  · intro w deps d ht hpar
    unfold ComponentMetadata.target_path
    simp [ht, hpar]
  · intro n pkg w ht
    unfold ComponentMetadata.target_path
    simp [ht]

/-- C9: when the component metadata block is absent, construction
succeeds (given a parent directory and a readable modification time)
with `section_present = false` and a section equal to the structural
default; when the block is present, any unknown top-level field makes
construction fail with an error carrying the source manifest path; on a
successful construction `section_present` records whether the block was
present. -/
theorem c9_section_extraction (fp : FieldParsers) (mtime : FsPath → Option Nat)
    (p : Package) :
    (∀ d t, p.metadata_component = none → p.manifest_path.parent = some d →
        mtime p.manifest_path = some t →
        ∃ m, ComponentMetadata.from_package fp mtime p = .ok m ∧
          m.section_present = false ∧ m.section_ = ({} : ComponentSection)) ∧
    (∀ raw k v, p.metadata_component = some raw → (k, v) ∈ raw →
        k ∉ recognizedSectionFields →
        ∃ e, ComponentMetadata.from_package fp mtime p =
          .error (.deserialize p.manifest_path e)) ∧
    (∀ m, ComponentMetadata.from_package fp mtime p = .ok m →
        m.section_present = p.metadata_component.isSome) := by
  refine ⟨?_, ?_, ?_⟩
  · intro d t hmc hpar hmt
    unfold ComponentMetadata.from_package
    simp only [hmc, hpar, hmt]
    exact ⟨_, rfl, rfl, normalizePaths_default d⟩
  · intro raw k v hmc hmem hk
    obtain ⟨e, he⟩ := deserializeSection_unknown_mem fp hk raw {} hmem
    have hds : deserializeSection fp raw = .error e := he
    unfold ComponentMetadata.from_package
    simp only [hmc, hds]
    exact ⟨e, rfl⟩
  · intro m h
    obtain ⟨d, t, s0, pres, hpar, hmt, hcond, hm⟩ :=
      from_package_ok_inv fp mtime p m h
    rw [hm]
    rcases hmc : p.metadata_component with _ | raw <;>
      simp only [hmc] at hcond ⊢
    · exact hcond.2
    · exact hcond.2

/-- C10: every metadata value produced by `from_package` has a manifest
path that possesses a parent directory, so the `parent().unwrap()`
inside `target_path` can never panic on a constructed value: for every
probe, `target_path` returns `.ok`. -/
theorem c10_parent_unwrap_safe (fp : FieldParsers) (mtime : FsPath → Option Nat)
    (p : Package) (m : ComponentMetadata)
    (h : ComponentMetadata.from_package fp mtime p = .ok m) :
    (m.manifest_path.parent).isSome ∧
    ∀ fs, ∃ r, m.target_path fs = .ok r := by
  obtain ⟨d, t, s0, pres, hpar, hmt, hcond, hm⟩ :=
    from_package_ok_inv fp mtime p m h
  subst hm
  refine ⟨by simp [hpar], ?_⟩
  intro fs
  rcases ht : (ComponentSection.normalizePaths d s0).target with ⟨n, pkg, w⟩ | ⟨oq, w, deps⟩
  · exact ⟨none, by unfold ComponentMetadata.target_path; simp [ht]⟩
  · rcases oq with _ | q
    · refine ⟨if fs (d.join ⟨false, [DEFAULT_WIT_DIR]⟩) = true
          then some (d.join ⟨false, [DEFAULT_WIT_DIR]⟩) else none, ?_⟩
      unfold ComponentMetadata.target_path
      simp only [ht, hpar]
    · exact ⟨some q, by unfold ComponentMetadata.target_path; simp [ht]⟩

/-- C7 witness: the normalization theorem applied to a concrete
directory and section, plus the construction-level part applied to a
concrete package. -/
theorem c7_normalization_witness :
    (ComponentSection.normalizePaths sampleDir sampleSection).target =
      .local_ (some (sampleDir.join ⟨false, ["wit"]⟩)) (some "w")
        (normalizeDeps sampleDir
          [(⟨"a", "b"⟩, .localPath ⟨false, ["d"]⟩),
           (⟨"c", "d"⟩, .package ⟨none, ⟨"1"⟩, none⟩)]) ∧
    (ComponentSection.normalizePaths sampleDir sampleSection).adapter =
      some (sampleDir.join ⟨false, ["adapter.wasm"]⟩) ∧
    sampleDir.join ⟨false, ["x"]⟩ = ⟨true, ["home", "proj", "x"]⟩ ∧
    (∃ d s0, pkgEmptyMeta.manifest_path.parent = some d ∧
      mEmptyMeta.section_ = s0.normalizePaths d ∧
      (match pkgEmptyMeta.metadata_component with
       | none => s0 = ({} : ComponentSection)
       | some raw => deserializeSection rejectFieldParsers raw = .ok s0)) := by
  obtain ⟨h1, _, _, _, _, _, h7, _, _, _, _, _, h13, _, h15⟩ :=
    c7_normalization sampleDir sampleSection
  refine ⟨h1 _ _ _ rfl, h7 _ rfl, ?_, ?_⟩
  · rw [h13 ⟨false, ["x"]⟩ rfl]
    rfl
  · exact h15 rejectFieldParsers sampleMTime pkgEmptyMeta mEmptyMeta rfl

/-- C8 witness: the target-path theorem applied to concrete metadata
values, with the existence probe answering true and false. -/
theorem c8_target_path_witness :
    mExplicit.target_path (fun _ => true) = .ok (some ⟨false, ["w"]⟩) ∧
    mDefaultPath.target_path (fun _ => true) =
      .ok (some ⟨true, ["home", "proj", "wit"]⟩) ∧
    mDefaultPath.target_path (fun _ => false) = .ok none ∧
    mPackageTarget.target_path (fun _ => true) = .ok none := by
  refine ⟨(c8_target_path _ mExplicit).1 _ none [] rfl, ?_, ?_,
    (c8_target_path _ mPackageTarget).2.2 _ _ none rfl⟩
  · exact (c8_target_path (fun _ => true) mDefaultPath).2.1 none []
      ⟨true, ["home", "proj"]⟩ rfl rfl
  · exact (c8_target_path (fun _ => false) mDefaultPath).2.1 none []
      ⟨true, ["home", "proj"]⟩ rfl rfl

/-- C9 witness: the extraction theorem applied to concrete packages with
an absent block, an unknown-key block, and an empty block. -/
theorem c9_section_extraction_witness :
    (∃ m, ComponentMetadata.from_package rejectFieldParsers sampleMTime pkgNoMeta
        = .ok m ∧ m.section_present = false ∧ m.section_ = ({} : ComponentSection)) ∧
    (∃ e, ComponentMetadata.from_package rejectFieldParsers sampleMTime pkgUnknownMeta
        = .error (.deserialize pkgUnknownMeta.manifest_path e)) ∧
    mEmptyMeta.section_present = (pkgEmptyMeta.metadata_component).isSome := by
  obtain ⟨h1, _, _⟩ :=
    c9_section_extraction rejectFieldParsers sampleMTime pkgNoMeta
  obtain ⟨_, h2, _⟩ :=
    c9_section_extraction rejectFieldParsers sampleMTime pkgUnknownMeta
  obtain ⟨_, _, h3⟩ :=
    c9_section_extraction rejectFieldParsers sampleMTime pkgEmptyMeta
  refine ⟨h1 ⟨true, ["home", "proj"]⟩ 7 rfl rfl rfl,
    h2 _ "foo" (.boolean true) rfl (List.mem_singleton.mpr rfl) (by decide),
    h3 mEmptyMeta rfl⟩

/-- C10 witness: the no-panic theorem applied to a concretely
constructed metadata value. -/
theorem c10_parent_unwrap_safe_witness :
    (mNoMeta.manifest_path.parent).isSome ∧
    ∃ r, mNoMeta.target_path (fun _ => true) = .ok r := by
  have h := c10_parent_unwrap_safe rejectFieldParsers sampleMTime pkgNoMeta
    mNoMeta rfl
  exact ⟨h.1, h.2 (fun _ => true)⟩
